import Mathlib

/-
Verification of the Fienup phase-retrieval routine
(src/code/classics.py, function fienup_phase_retrieval).

Modelling choices
=================
* numpy arrays are modelled by `Arr α`: an explicit shape `(H, W)`
  together with a total value function `ℕ → ℕ → α`.  All numeric
  arrays carry exact real (`ℝ`) or complex (`ℂ`) entries; the float
  arithmetic of the source is modelled exactly.
* `np.fft.fft2` / `np.fft.ifft2` are the exact 2-D discrete Fourier
  transform and its inverse, written as finite sums of complex
  exponentials (the definition numpy implements).
* The body of the loop only ever combines same-shaped arrays once
  `y_hat` has been built, so inside the loop plain pointwise access is
  used; numpy broadcasting is modelled (`bDim`, `bCompat`, `bGet`) at
  the one place the source relies on it: the construction
  `y_hat = mag * np.exp(1j * init_phi)` on line 54, where `init_phi`
  is never shape-checked.
* `assert` failures and the `ValueError` numpy raises on an
  impossible broadcast are modelled by `Except.error`.  When
  `mode = "input-output"` and broadcasting gives `y_hat` a shape
  different from `mag.shape`, the source raises an `IndexError`
  inside iteration 1 (line 89: `x[indices]` with `x` still the
  zero array of `mag`'s shape); since the condition is loop-invariant
  and nothing observable happens before it fires, the model hoists
  this error in front of the loop.
* The random initial phase drawn on line 52 (`np.random.rand`) is
  modelled by an explicit oracle argument `rand`; it is consulted
  only when `init_phi` is absent, exactly as in the source.
-/

/-- A numpy-style 2-D array: an explicit shape together with a total
value function.  Values outside the shape are junk and never observed
by in-shape computations. -/
structure Arr (α : Type) where
  H : ℕ
  W : ℕ
  get : ℕ → ℕ → α

/-- numpy broadcast of a pair of dimensions (assuming compatibility):
a dimension of 1 stretches to the other dimension. -/
def bDim (a b : ℕ) : ℕ := if a = 1 then b else a

/-- numpy compatibility of two dimensions: equal, or one of them is 1. -/
def bCompat (a b : ℕ) : Bool := a == b || a == 1 || b == 1

/-- Reading an array at a broadcast position: a dimension of size 1 is
read at index 0. -/
def bGet {α : Type} (A : Arr α) (i j : ℕ) : α :=
  A.get (if A.H = 1 then 0 else i) (if A.W = 1 then 0 else j)

/-- Lift an array to a (larger) broadcast shape. -/
def bTo {α : Type} (A : Arr α) (H W : ℕ) : Arr α :=
  ⟨H, W, fun h w => bGet A h w⟩

/-- Exact 2-D discrete Fourier transform, as computed by np.fft.fft2. -/
noncomputable def fft2 (A : Arr ℂ) : Arr ℂ :=
  ⟨A.H, A.W, fun u v =>
    ∑ h ∈ Finset.range A.H, ∑ w ∈ Finset.range A.W,
      A.get h w *
        Complex.exp (-(2 * Real.pi * Complex.I) *
          ((u : ℂ) * (h : ℂ) / (A.H : ℂ) + (v : ℂ) * (w : ℂ) / (A.W : ℂ)))⟩

/-- Exact 2-D inverse discrete Fourier transform, as computed by
np.fft.ifft2. -/
noncomputable def ifft2 (A : Arr ℂ) : Arr ℂ :=
  ⟨A.H, A.W, fun h w =>
    (1 / ((A.H : ℂ) * (A.W : ℂ))) *
      ∑ u ∈ Finset.range A.H, ∑ v ∈ Finset.range A.W,
        A.get u v *
          Complex.exp ((2 * Real.pi * Complex.I) *
            ((u : ℂ) * (h : ℂ) / (A.H : ℂ) + (v : ℂ) * (w : ℂ) / (A.W : ℂ)))⟩

/-- The loop state of fienup_phase_retrieval: the Fourier-domain
estimate `y_hat`, the signal-domain estimate `x`, the previous iterate
`x_p` (None before iteration 1, line 58), and the error trace. -/
structure FState where
  y_hat : Arr ℂ
  x : Arr ℝ
  x_p : Option (Arr ℝ)
  errors : List ℝ

/-- Line 70: `y = np.real(np.fft.ifft2(y_hat))`. -/
noncomputable def fienupY (s : FState) : Arr ℝ :=
  ⟨s.y_hat.H, s.y_hat.W, fun h w => ((ifft2 s.y_hat).get h w).re⟩

/-- Lines 84-85: the violation set,
`indices = np.logical_or(np.logical_and(y < threshhold, mask),
np.logical_not(mask))`. -/
def fienupIdx (mask : Arr Bool) (threshhold : ℝ) (y : Arr ℝ)
    (h w : ℕ) : Prop :=
  (y.get h w < threshhold ∧ mask.get h w = true) ∨ mask.get h w = false

open Classical in
/-- Line 89: the signal-domain error `np.sum(x[indices] ** 2)`, summing
the squares of `x1` over the violation set of `y`. -/
noncomputable def fienupErrVal (mask : Arr Bool) (threshhold : ℝ)
    (y x1 : Arr ℝ) : ℝ :=
  ∑ h ∈ Finset.range y.H, ∑ w ∈ Finset.range y.W,
    if fienupIdx mask threshhold y h w then x1.get h w ^ 2 else 0

/-- Pointwise complexification of a real array (numpy does this
implicitly when a real array is passed to np.fft.fft2). -/
def toC (A : Arr ℝ) : Arr ℂ :=
  ⟨A.H, A.W, fun h w => ((A.get h w : ℝ) : ℂ)⟩

/-- Line 111: the Fourier-domain projection
`y_hat = mag * np.exp(1j * np.angle(x_hat))`. -/
noncomputable def fienupProj (mag : Arr ℝ) (x_hat : Arr ℂ) : Arr ℂ :=
  ⟨x_hat.H, x_hat.W, fun h w =>
    ((mag.get h w : ℝ) : ℂ) *
      Complex.exp (Complex.I * (((x_hat.get h w).arg : ℝ) : ℂ))⟩

/-- Line 107: the magnitude error `np.mean((np.abs(x_hat) - mag) ** 2)`
recorded in gs mode. -/
noncomputable def fienupGsErr (mag : Arr ℝ) (x_hat : Arr ℂ) : ℝ :=
  (∑ h ∈ Finset.range x_hat.H, ∑ w ∈ Finset.range x_hat.W,
    (Complex.abs (x_hat.get h w) - mag.get h w) ^ 2) /
      ((x_hat.H : ℝ) * (x_hat.W : ℝ))

open Classical in
/-- One iteration of the main loop, lines 70-111 of the source.
`mag` and `mask` are already at the loop shape (they are broadcast
once, before the loop; inside the loop all arrays share one shape).
The in-place numpy assignment `x[indices] = ...` is modelled by the
functional update `x2`: the right-hand side of the assignment reads
`x_p` and `y`, which are either fresh arrays or rebound before the
write, so value semantics agrees with the in-place semantics. -/
noncomputable def fienupStep (mag : Arr ℝ) (mask : Arr Bool)
    (threshhold beta : ℝ) (mode : String) (s : FState) : FState :=
  -- line 70
  let y := fienupY s
  -- lines 73-76
  let x_p := match s.x_p with
    | none => y
    | some _ => s.x
  -- lines 79-80
  let x1 := if mode = "output-output" ∨ mode = "hybrid" ∨ mode = "gs"
    then y else s.x
  -- lines 88-89 (before the corrective update, as in the source)
  let errors1 := if mode ≠ "gs"
    then s.errors ++ [fienupErrVal mask threshhold y x1]
    else s.errors
  -- lines 94-100
  let x2 : Arr ℝ := ⟨x1.H, x1.W, fun h w =>
    if fienupIdx mask threshhold y h w then
      if mode = "hybrid" ∨ mode = "input-output" then
        x_p.get h w - beta * y.get h w
      else if mode = "output-output" then
        y.get h w - beta * y.get h w
      else if mode = "gs" then 0
      else x1.get h w
    else x1.get h w⟩
  -- line 103
  let x_hat := fft2 (toC x2)
  -- lines 106-107
  let errors2 := if mode = "gs"
    then errors1 ++ [fienupGsErr mag x_hat]
    else errors1
  -- line 111
  ⟨fienupProj mag x_hat, x2, some x_p, errors2⟩

/-- The main loop, lines 64-111: `n` iterations of `fienupStep`,
performed in order. -/
noncomputable def fienupIter (mag : Arr ℝ) (mask : Arr Bool)
    (threshhold beta : ℝ) (mode : String) : ℕ → FState → FState
  | 0, s => s
  | n + 1, s =>
      fienupIter mag mask threshhold beta mode n
        (fienupStep mag mask threshhold beta mode s)

/-- Line 54: `y_hat = mag * np.exp(1j * init_phi)`, with numpy
broadcasting of the two operand shapes. -/
noncomputable def fienupInitYhat (mag phi : Arr ℝ) : Arr ℂ :=
  ⟨bDim mag.H phi.H, bDim mag.W phi.W, fun h w =>
    ((bGet mag h w : ℝ) : ℂ) *
      Complex.exp (Complex.I * ((bGet phi h w : ℝ) : ℂ))⟩

/-- The whole routine fienup_phase_retrieval (lines 39-113).
`rand` is the oracle for the per-pixel uniform sample drawn on line 52;
it is consulted only when `init_phi` is absent.  Assertion failures,
the broadcast `ValueError` of line 54 and the `IndexError` described in
the header comment are returned as `Except.error`. -/
noncomputable def fienup_phase_retrieval (mag : Arr ℝ)
    (init_phi : Option (Arr ℝ)) (mask : Option (Arr Bool))
    (threshhold beta : ℝ) (steps : ℤ) (mode : String) (rand : Arr ℝ) :
    Except String (Arr ℝ × List ℝ) :=
  -- line 39
  if beta > 0 then
    -- line 40
    if steps > 0 then
      -- lines 41-43
      if mode = "input-output" ∨ mode = "output-output" ∨
          mode = "hybrid" ∨ mode = "gs" then
        -- lines 45-46
        let maskA := mask.getD ⟨mag.H, mag.W, fun _ _ => true⟩
        -- line 48
        if mag.H = maskA.H ∧ mag.W = maskA.W then
          -- lines 51-52
          let phi := init_phi.getD
            ⟨mag.H, mag.W, fun h w => 2 * Real.pi * rand.get h w⟩
          -- line 54: numpy broadcast of mag against phi
          if bCompat mag.H phi.H && bCompat mag.W phi.W then
            let Hb := bDim mag.H phi.H
            let Wb := bDim mag.W phi.W
            if mode = "input-output" ∧ ¬(Hb = mag.H ∧ Wb = mag.W) then
              Except.error
                "IndexError: boolean index did not match indexed array"
            else
              -- lines 55-111; x is the zero array of line 55
              let s := fienupIter (bTo mag Hb Wb) (bTo maskA Hb Wb)
                threshhold beta mode steps.toNat
                ⟨fienupInitYhat mag phi,
                 ⟨mag.H, mag.W, fun _ _ => 0⟩, none, []⟩
              -- line 113
              Except.ok (s.x, s.errors)
          else
            Except.error
              "ValueError: operands could not be broadcast together"
        else Except.error "mask and mag must have same shape"
      else
        Except.error "mode must be input-output, output-output or hybrid"
    else Except.error "steps must be a positive number"
  else Except.error "step size must be a positive number"

/-
Aliasing skeleton for the frame property (which arrays the in-place
numpy assignments of the source can touch).

Python variables are rebound (lines 46, 52, 70, 73-76, 79-80) or used
for an in-place element assignment (`x[indices] = ...`, lines 96, 98
and 100 — the only in-place array writes in the whole function).  The
skeleton tracks, per variable, the allocation site of the array object
it is bound to, exactly following the source.
-/

/-- Allocation sites of the arrays handled by fienup_phase_retrieval:
the three caller-supplied arrays and the arrays freshly created inside
the call (line numbers of the source; the per-iteration allocations
carry the iteration index). -/
inductive Alloc where
  | argMag : Alloc
  | argMask : Alloc
  | argPhi : Alloc
  | freshOnes : Alloc
  | freshRand : Alloc
  | freshYhat0 : Alloc
  | freshZeros : Alloc
  | freshY : ℕ → Alloc
  | freshYhat : ℕ → Alloc
deriving DecidableEq

/-- Whether an allocation is one of the caller's argument arrays. -/
def Alloc.isArg : Alloc → Bool
  | Alloc.argMag => true
  | Alloc.argMask => true
  | Alloc.argPhi => true
  | _ => false

/-- The bindings of the mutable Python variables `x` and `x_p` at the
top of a loop iteration.  Before iteration 1 (lines 55-58): `x` is the
fresh zero array of line 55 and `x_p` is None. -/
structure AliasEnv where
  x : Alloc
  x_p : Option Alloc

/-- Variable bindings after lines 55-58. -/
def aliasInit : AliasEnv := ⟨Alloc.freshZeros, none⟩

/-- One loop iteration of the binding skeleton (iteration number `i`):
line 70 binds `y` to a fresh array; lines 73-76 bind `x_p` to `y`
(first iteration) or to the array currently bound to `x`; lines 79-80
rebind `x` to `y` for the three adopting modes; lines 96-100 then
mutate the array bound to `x` in place.  Returns the new bindings and
the allocation mutated in place. -/
def aliasStep (mode : String) (i : ℕ) (e : AliasEnv) : AliasEnv × Alloc :=
  let y := Alloc.freshY i
  let x_p := match e.x_p with
    | none => y
    | some _ => e.x
  let x := if mode = "output-output" ∨ mode = "hybrid" ∨ mode = "gs"
    then y else e.x
  (⟨x, some x_p⟩, x)

/-- The allocations mutated in place by iterations `i, i+1, ...` for
`n` iterations, starting from bindings `e`. -/
def aliasWrites (mode : String) : ℕ → ℕ → AliasEnv → List Alloc
  | 0, _, _ => []
  | n + 1, i, e =>
      (aliasStep mode i e).2 :: aliasWrites mode n (i + 1) (aliasStep mode i e).1

/-
Concrete arrays used to evaluate the model on small inputs.
-/

/-- A 1x1 magnitude array with the single entry 1. -/
def mag11 : Arr ℝ := ⟨1, 1, fun _ _ => 1⟩

/-- A 1x1 all-zero phase array. -/
def phi11 : Arr ℝ := ⟨1, 1, fun _ _ => 0⟩

/-- A 1x1 all-true mask (the default mask at shape 1x1). -/
def mask11 : Arr Bool := ⟨1, 1, fun _ _ => true⟩

/-- The 1x1 zero array (line 55 at shape 1x1). -/
def zero11 : Arr ℝ := ⟨1, 1, fun _ _ => 0⟩

/-- The loop state right before iteration 1 for the 1x1 inputs
mag11 / phi11 (lines 54-61 of the source). -/
noncomputable def s0c : FState :=
  ⟨fienupInitYhat mag11 phi11, zero11, none, []⟩

/-- A 2x2 magnitude array with all entries 1. -/
def mag22 : Arr ℝ := ⟨2, 2, fun _ _ => 1⟩

/-- A 1x2 all-zero phase array: its shape differs from mag22's but
broadcasts against it. -/
def phi12 : Arr ℝ := ⟨1, 2, fun _ _ => 0⟩

/-- A 3x2 all-zero phase array: its shape cannot broadcast against
mag22's shape. -/
def phi32 : Arr ℝ := ⟨3, 2, fun _ _ => 0⟩

/-
General lemmas about one iteration and about the loop.
-/

lemma fienupStep_x_p (mag : Arr ℝ) (mask : Arr Bool) (th beta : ℝ)
    (mode : String) (s : FState) :
    (fienupStep mag mask th beta mode s).x_p =
      some (match s.x_p with | none => fienupY s | some _ => s.x) := rfl

lemma fienupStep_y_hat (mag : Arr ℝ) (mask : Arr Bool) (th beta : ℝ)
    (mode : String) (s : FState) :
    (fienupStep mag mask th beta mode s).y_hat =
      fienupProj mag (fft2 (toC (fienupStep mag mask th beta mode s).x)) := rfl

lemma fienupStep_errors_notgs (mag : Arr ℝ) (mask : Arr Bool)
    (th beta : ℝ) (mode : String) (s : FState) (h : mode ≠ "gs") :
    (fienupStep mag mask th beta mode s).errors =
      s.errors ++ [fienupErrVal mask th (fienupY s)
        (if mode = "output-output" ∨ mode = "hybrid" ∨ mode = "gs"
         then fienupY s else s.x)] := by
  simp [fienupStep, h]

lemma fienupStep_errors_gs (mag : Arr ℝ) (mask : Arr Bool)
    (th beta : ℝ) (s : FState) :
    (fienupStep mag mask th beta "gs" s).errors =
      s.errors ++
        [fienupGsErr mag
          (fft2 (toC (fienupStep mag mask th beta "gs" s).x))] := by
  simp [fienupStep, toC]

lemma fienupStep_errors_one (mag : Arr ℝ) (mask : Arr Bool)
    (th beta : ℝ) (mode : String) (s : FState)
    (hmode : mode = "input-output" ∨ mode = "output-output" ∨
      mode = "hybrid" ∨ mode = "gs") :
    ∃ v, (fienupStep mag mask th beta mode s).errors = s.errors ++ [v] := by
  rcases hmode with h | h | h | h
  · exact ⟨_, fienupStep_errors_notgs mag mask th beta _ s (by subst h; decide)⟩
  · exact ⟨_, fienupStep_errors_notgs mag mask th beta _ s (by subst h; decide)⟩
  · exact ⟨_, fienupStep_errors_notgs mag mask th beta _ s (by subst h; decide)⟩
  · exact ⟨_, by subst h; exact fienupStep_errors_gs mag mask th beta s⟩

lemma fienupIter_last (mag : Arr ℝ) (mask : Arr Bool) (th beta : ℝ)
    (mode : String) (n : ℕ) :
    ∀ s : FState,
      fienupIter mag mask th beta mode (n + 1) s =
        fienupStep mag mask th beta mode
          (fienupIter mag mask th beta mode n s) := by
  induction n with
  | zero => intro s; rfl
  | succ k ih =>
      intro s
      rw [fienupIter, ih]
      rfl

lemma fienupIter_add (mag : Arr ℝ) (mask : Arr Bool) (th beta : ℝ)
    (mode : String) (k : ℕ) :
    ∀ (m : ℕ) (s : FState),
      fienupIter mag mask th beta mode (m + k) s =
        fienupIter mag mask th beta mode k
          (fienupIter mag mask th beta mode m s) := by
  induction k with
  | zero => intro m s; rfl
  | succ j ih =>
      intro m s
      have h1 : m + (j + 1) = (m + j) + 1 := rfl
      rw [h1, fienupIter_last, ih, ← fienupIter_last]

lemma fienupIter_errors_app (mag : Arr ℝ) (mask : Arr Bool)
    (th beta : ℝ) (mode : String)
    (hmode : mode = "input-output" ∨ mode = "output-output" ∨
      mode = "hybrid" ∨ mode = "gs") (n : ℕ) :
    ∀ s : FState, ∃ t : List ℝ, t.length = n ∧
      (fienupIter mag mask th beta mode n s).errors = s.errors ++ t := by
  induction n with
  | zero => intro s; exact ⟨[], rfl, by simp [fienupIter]⟩
  | succ k ih =>
      intro s
      obtain ⟨t, hlen, ht⟩ := ih (fienupStep mag mask th beta mode s)
      obtain ⟨v, hv⟩ := fienupStep_errors_one mag mask th beta mode s hmode
      refine ⟨[v] ++ t, by simp [hlen], ?_⟩
      rw [fienupIter, ht, hv]
      simp

lemma fienupStep_shape (mag : Arr ℝ) (mask : Arr Bool) (th beta : ℝ)
    (mode : String) (s : FState) (Hb Wb : ℕ)
    (h1 : s.y_hat.H = Hb) (h2 : s.y_hat.W = Wb)
    (h3 : s.x.H = Hb) (h4 : s.x.W = Wb) :
    (fienupStep mag mask th beta mode s).y_hat.H = Hb
    ∧ (fienupStep mag mask th beta mode s).y_hat.W = Wb
    ∧ (fienupStep mag mask th beta mode s).x.H = Hb
    ∧ (fienupStep mag mask th beta mode s).x.W = Wb := by
  refine ⟨?_, ?_, ?_, ?_⟩ <;>
    (simp only [fienupStep, fienupProj, fft2, toC, fienupY];
     split <;> simp [h1, h2, h3, h4])

lemma fienupIter_shape (mag : Arr ℝ) (mask : Arr Bool) (th beta : ℝ)
    (mode : String) (Hb Wb : ℕ) (n : ℕ) :
    ∀ s : FState,
      s.y_hat.H = Hb → s.y_hat.W = Wb → s.x.H = Hb → s.x.W = Wb →
      (fienupIter mag mask th beta mode n s).y_hat.H = Hb
      ∧ (fienupIter mag mask th beta mode n s).y_hat.W = Wb
      ∧ (fienupIter mag mask th beta mode n s).x.H = Hb
      ∧ (fienupIter mag mask th beta mode n s).x.W = Wb := by
  induction n with
  | zero => intro s h1 h2 h3 h4; exact ⟨h1, h2, h3, h4⟩
  | succ k ih =>
      intro s h1 h2 h3 h4
      obtain ⟨g1, g2, g3, g4⟩ :=
        fienupStep_shape mag mask th beta mode s Hb Wb h1 h2 h3 h4
      exact ih (fienupStep mag mask th beta mode s) g1 g2 g3 g4

lemma fienupStep_gs_oo (mag : Arr ℝ) (mask : Arr Bool) (th : ℝ)
    (s1 s2 : FState) (hy : s1.y_hat = s2.y_hat) (hx : s1.x = s2.x)
    (hp : s1.x_p = s2.x_p) :
    (fienupStep mag mask th 1 "output-output" s1).y_hat =
      (fienupStep mag mask th 1 "gs" s2).y_hat
    ∧ (fienupStep mag mask th 1 "output-output" s1).x =
      (fienupStep mag mask th 1 "gs" s2).x
    ∧ (fienupStep mag mask th 1 "output-output" s1).x_p =
      (fienupStep mag mask th 1 "gs" s2).x_p := by
  have hY : fienupY s1 = fienupY s2 := by
    unfold fienupY
    rw [hy]
  have hx2 : (fienupStep mag mask th 1 "output-output" s1).x =
      (fienupStep mag mask th 1 "gs" s2).x := by
    simp only [fienupStep]
    simp only [show ("output-output" : String) = "hybrid" ∨
        ("output-output" : String) = "input-output" ↔ False by simp,
      show ("gs" : String) = "hybrid" ∨
        ("gs" : String) = "input-output" ↔ False by simp]
    simp
    rw [hY]
    exact ⟨rfl, rfl, rfl⟩
  refine ⟨?_, hx2, ?_⟩
  · rw [fienupStep_y_hat, fienupStep_y_hat, hx2]
  · rw [fienupStep_x_p, fienupStep_x_p, hp, hY, hx]

lemma fienupIter_gs_oo (mag : Arr ℝ) (mask : Arr Bool) (th : ℝ) (n : ℕ) :
    ∀ s1 s2 : FState, s1.y_hat = s2.y_hat → s1.x = s2.x →
      s1.x_p = s2.x_p →
      (fienupIter mag mask th 1 "output-output" n s1).y_hat =
        (fienupIter mag mask th 1 "gs" n s2).y_hat
      ∧ (fienupIter mag mask th 1 "output-output" n s1).x =
        (fienupIter mag mask th 1 "gs" n s2).x
      ∧ (fienupIter mag mask th 1 "output-output" n s1).x_p =
        (fienupIter mag mask th 1 "gs" n s2).x_p := by
  induction n with
  | zero => intro s1 s2 hy hx hp; exact ⟨hy, hx, hp⟩
  | succ k ih =>
      intro s1 s2 hy hx hp
      obtain ⟨g1, g2, g3⟩ := fienupStep_gs_oo mag mask th s1 s2 hy hx hp
      exact ih _ _ g1 g2 g3

lemma fienupY_s0c (h w : ℕ) : (fienupY s0c).get h w = 1 := by
  simp [fienupY, s0c, ifft2, fienupInitYhat, bDim, bGet, mag11, phi11,
    Finset.sum_range_one]

open Classical in
/-- Claim C4: in every iteration the violation set is
indices = (y < threshold AND mask) OR (NOT mask) (the definition
fienupIdx), and the end-of-iteration x satisfies: at violating pixels
x = x_prev - beta*y for modes input-output and hybrid (x_prev being y
on iteration 1 and the previous x afterwards), x = (1-beta)*y for
output-output, and x = 0 for gs; at non-violating pixels x = y for
output-output, hybrid and gs, while input-output keeps the x of the
previous iteration (the zero array before iteration 1). -/
theorem fienup_C4_update_rule (mag : Arr ℝ) (mask : Arr Bool)
    (threshhold beta : ℝ) (s : FState) (h w : ℕ) :
    ((fienupStep mag mask threshhold beta "hybrid" s).x.get h w =
      if fienupIdx mask threshhold (fienupY s) h w
      then (match s.x_p with
            | none => fienupY s
            | some _ => s.x).get h w - beta * (fienupY s).get h w
      else (fienupY s).get h w)
    ∧ ((fienupStep mag mask threshhold beta "input-output" s).x.get h w =
      if fienupIdx mask threshhold (fienupY s) h w
      then (match s.x_p with
            | none => fienupY s
            | some _ => s.x).get h w - beta * (fienupY s).get h w
      else s.x.get h w)
    ∧ ((fienupStep mag mask threshhold beta "output-output" s).x.get h w =
      if fienupIdx mask threshhold (fienupY s) h w
      then (1 - beta) * (fienupY s).get h w
      else (fienupY s).get h w)
    ∧ ((fienupStep mag mask threshhold beta "gs" s).x.get h w =
      if fienupIdx mask threshhold (fienupY s) h w
      then 0
      else (fienupY s).get h w) := by
  refine ⟨?_, ?_, ?_, ?_⟩ <;> simp [fienupStep] <;> split <;> ring_nf

/-- Claim C1 (amended): for every iteration and every mode except gs,
the value appended to the error trace is the sum of squared entries,
over the violation index set, of the x that has NOT yet received the
mode-specific correction of step 5: the raw inverse-transform estimate
y for modes output-output and hybrid, and the previous iteration's x
for mode input-output (lines 88-89 run before lines 94-100). -/
theorem fienup_C1_amended (mag : Arr ℝ) (mask : Arr Bool)
    (th beta : ℝ) (mode : String) (s : FState)
    (hmode : mode = "input-output" ∨ mode = "output-output" ∨
      mode = "hybrid") :
    (fienupStep mag mask th beta mode s).errors =
      s.errors ++ [fienupErrVal mask th (fienupY s)
        (if mode = "input-output" then s.x else fienupY s)] := by
  rcases hmode with hm | hm | hm <;> subst hm <;>
    rw [fienupStep_errors_notgs _ _ _ _ _ _ (by decide)] <;> simp

/-- Witness for the amended C1 theorem at a concrete input. -/
theorem fienup_C1_amended_witness :
    (fienupStep mag11 mask11 2 1 "hybrid" s0c).errors =
      s0c.errors ++ [fienupErrVal mask11 2 (fienupY s0c)
        (if ("hybrid" : String) = "input-output"
         then s0c.x else fienupY s0c)] :=
  fienup_C1_amended mag11 mask11 2 1 "hybrid" s0c (by decide)

open Classical in
/-- Counterexample to claim C1 as stated: on the 1x1 input mag = [[1]],
init_phi = [[0]], default mask, threshold 2, beta 1, mode hybrid, the
single pixel violates the constraint (y = 1 < 2), the value appended
during iteration 1 is 1 (computed from the pre-correction x = y), while
the sum of squared entries of the just-updated x over the violation set
is 0 (the correction sets x to x_prev - beta*y = 1 - 1 = 0).  The claim
would require the appended value to be 0. -/
theorem fienup_C1_counterexample :
    (fienupStep mag11 mask11 2 1 "hybrid" s0c).errors = [1]
    ∧ (∑ h ∈ Finset.range 1, ∑ w ∈ Finset.range 1,
        if fienupIdx mask11 2 (fienupY s0c) h w
        then (fienupStep mag11 mask11 2 1 "hybrid" s0c).x.get h w ^ 2
        else 0) = 0 := by
  have hidx : ∀ h w, fienupIdx mask11 2 (fienupY s0c) h w := by
    intro h w
    exact Or.inl ⟨by rw [fienupY_s0c]; norm_num, rfl⟩
  have hx : ∀ h w,
      (fienupStep mag11 mask11 2 1 "hybrid" s0c).x.get h w = 0 := by
    have hp : s0c.x_p = none := rfl
    intro h w
    simp [fienupStep, hidx h w, hp, fienupY_s0c]
  constructor
  · rw [fienupStep_errors_notgs _ _ _ _ _ _ (by decide)]
    have hev : fienupErrVal mask11 2 (fienupY s0c)
        (if ("hybrid" : String) = "output-output" ∨
          ("hybrid" : String) = "hybrid" ∨ ("hybrid" : String) = "gs"
         then fienupY s0c else s0c.x) = 1 := by
      rw [if_pos (by decide)]
      rw [fienupErrVal]
      have hH : (fienupY s0c).H = 1 := rfl
      have hW : (fienupY s0c).W = 1 := rfl
      rw [hH, hW]
      rw [Finset.sum_range_one, Finset.sum_range_one,
        if_pos (hidx 0 0), fienupY_s0c]
      norm_num
    rw [hev]
    rfl
  · rw [Finset.sum_range_one, Finset.sum_range_one,
      if_pos (hidx 0 0), hx 0 0]
    norm_num

/-- Claim C5: if every entry of mag is non-negative, then after the
Fourier-domain projection of every iteration (line 111) the complex
array y_hat has pointwise magnitude exactly mag, and the same holds for
the initial y_hat built from init_phi on line 54 (there at the
broadcast-read magnitude value). -/
theorem fienup_C5_magnitude (mag : Arr ℝ) (mask : Arr Bool)
    (th beta : ℝ) (mode : String) (s : FState) (phi : Arr ℝ)
    (hmag : ∀ h w, 0 ≤ mag.get h w) :
    (∀ h w, Complex.abs
        ((fienupStep mag mask th beta mode s).y_hat.get h w) =
      mag.get h w)
    ∧ (∀ h w, Complex.abs ((fienupInitYhat mag phi).get h w) =
      bGet mag h w) := by
  constructor
  · intro h w
    rw [fienupStep_y_hat]
    simp [fienupProj, map_mul, Complex.abs_exp, Complex.mul_re,
      abs_of_nonneg (hmag h w)]
  · intro h w
    simp [fienupInitYhat, map_mul, Complex.abs_exp, Complex.mul_re,
      bGet, abs_of_nonneg (hmag _ _)]

/-- Witness for the C5 theorem at a concrete input. -/
theorem fienup_C5_magnitude_witness :
    (∀ h w, Complex.abs
        ((fienupStep mag11 mask11 0 1 "hybrid" s0c).y_hat.get h w) =
      mag11.get h w)
    ∧ (∀ h w, Complex.abs ((fienupInitYhat mag11 phi11).get h w) =
      bGet mag11 h w) :=
  fienup_C5_magnitude mag11 mask11 0 1 "hybrid" s0c phi11
    (fun h w => by norm_num [mag11])

/-- Claim C8: with an explicitly supplied init_phi the procedure is
deterministic and consults no random source: the result is independent
of the random oracle, so two calls with identical mag, init_phi, mask,
threshold, beta, steps and mode return identical x and errors. -/
theorem fienup_C8_deterministic (mag : Arr ℝ) (p : Arr ℝ)
    (mask : Option (Arr Bool)) (th beta : ℝ) (steps : ℤ) (mode : String)
    (rand1 rand2 : Arr ℝ) :
    fienup_phase_retrieval mag (some p) mask th beta steps mode rand1 =
      fienup_phase_retrieval mag (some p) mask th beta steps mode rand2 :=
  rfl

lemma fienup_top_ok (mag p : Arr ℝ) (mask : Option (Arr Bool))
    (th beta : ℝ) (steps : ℤ) (mode : String) (rand : Arr ℝ)
    (hb : beta > 0) (hs : steps > 0)
    (hmode : mode = "input-output" ∨ mode = "output-output" ∨
      mode = "hybrid" ∨ mode = "gs")
    (hm : mag.H = (mask.getD ⟨mag.H, mag.W, fun _ _ => true⟩).H ∧
      mag.W = (mask.getD ⟨mag.H, mag.W, fun _ _ => true⟩).W)
    (hc : (bCompat mag.H p.H && bCompat mag.W p.W) = true)
    (hio : ¬(mode = "input-output" ∧
      ¬(bDim mag.H p.H = mag.H ∧ bDim mag.W p.W = mag.W))) :
    fienup_phase_retrieval mag (some p) mask th beta steps mode rand =
      Except.ok
        ((fienupIter (bTo mag (bDim mag.H p.H) (bDim mag.W p.W))
            (bTo (mask.getD ⟨mag.H, mag.W, fun _ _ => true⟩)
              (bDim mag.H p.H) (bDim mag.W p.W))
            th beta mode steps.toNat
            ⟨fienupInitYhat mag p, ⟨mag.H, mag.W, fun _ _ => 0⟩,
             none, []⟩).x,
         (fienupIter (bTo mag (bDim mag.H p.H) (bDim mag.W p.W))
            (bTo (mask.getD ⟨mag.H, mag.W, fun _ _ => true⟩)
              (bDim mag.H p.H) (bDim mag.W p.W))
            th beta mode steps.toNat
            ⟨fienupInitYhat mag p, ⟨mag.H, mag.W, fun _ _ => 0⟩,
             none, []⟩).errors) := by
  simp only [fienup_phase_retrieval, Option.getD_some]
  rw [if_pos hb, if_pos hs, if_pos hmode, if_pos hm, if_pos hc, if_neg hio]

/-- Claim C3: with beta = 1 the output-output mode produces, at every
iteration, exactly the same signal-domain estimate x as the gs mode
with the same arguments (only the per-iteration error metric differs):
the x trajectories of the loop agree at every step, and the whole call
returns the same x. -/
theorem fienup_C3_gs_equivalence :
    (∀ (mag : Arr ℝ) (mask : Arr Bool) (th : ℝ) (n : ℕ) (s : FState),
      (fienupIter mag mask th 1 "output-output" n s).x =
        (fienupIter mag mask th 1 "gs" n s).x)
    ∧ (∀ (mag p : Arr ℝ) (mask : Option (Arr Bool)) (th : ℝ)
        (steps : ℤ) (rand : Arr ℝ),
      (fienup_phase_retrieval mag (some p) mask th 1 steps
          "output-output" rand).map Prod.fst =
        (fienup_phase_retrieval mag (some p) mask th 1 steps
          "gs" rand).map Prod.fst) := by
  have key : ∀ (mag : Arr ℝ) (mask : Arr Bool) (th : ℝ) (n : ℕ)
      (s : FState),
      (fienupIter mag mask th 1 "output-output" n s).x =
        (fienupIter mag mask th 1 "gs" n s).x :=
    fun mag mask th n s =>
      (fienupIter_gs_oo mag mask th n s s rfl rfl rfl).2.1
  refine ⟨key, ?_⟩
  intro mag p mask th steps rand
  have hb : (1 : ℝ) > 0 := by norm_num
  by_cases hs : steps > 0
  · by_cases hm : mag.H = (mask.getD ⟨mag.H, mag.W, fun _ _ => true⟩).H ∧
        mag.W = (mask.getD ⟨mag.H, mag.W, fun _ _ => true⟩).W
    · by_cases hc : (bCompat mag.H p.H && bCompat mag.W p.W) = true
      · rw [fienup_top_ok mag p mask th 1 steps "output-output" rand
            hb hs (by decide) hm hc (by simp),
          fienup_top_ok mag p mask th 1 steps "gs" rand
            hb hs (by decide) hm hc (by simp)]
        simp only [Except.map]
        rw [key]
      · have e1 : ∀ mo : String,
            (mo = "input-output" ∨ mo = "output-output" ∨
              mo = "hybrid" ∨ mo = "gs") →
            fienup_phase_retrieval mag (some p) mask th 1 steps mo rand =
              Except.error
                "ValueError: operands could not be broadcast together" := by
          intro mo hmo
          simp only [fienup_phase_retrieval, Option.getD_some]
          rw [if_pos hb, if_pos hs, if_pos hmo, if_pos hm, if_neg hc]
        rw [e1 _ (by decide), e1 _ (by decide)]
    · have e1 : ∀ mo : String,
          (mo = "input-output" ∨ mo = "output-output" ∨
            mo = "hybrid" ∨ mo = "gs") →
          fienup_phase_retrieval mag (some p) mask th 1 steps mo rand =
            Except.error "mask and mag must have same shape" := by
        intro mo hmo
        simp only [fienup_phase_retrieval, Option.getD_some]
        rw [if_pos hb, if_pos hs, if_pos hmo, if_neg hm]
      rw [e1 _ (by decide), e1 _ (by decide)]
  · have e1 : ∀ mo : String,
        fienup_phase_retrieval mag (some p) mask th 1 steps mo rand =
          Except.error "steps must be a positive number" := by
      intro mo
      simp only [fienup_phase_retrieval, Option.getD_some]
      rw [if_pos hb, if_neg hs]
    rw [e1, e1]

lemma bDim_self (a : ℕ) : bDim a a = a := by
  simp [bDim]

lemma bCompat_self (a : ℕ) : bCompat a a = true := by
  simp [bCompat]

lemma fienup_top_ok_none (mag : Arr ℝ) (mask : Option (Arr Bool))
    (th beta : ℝ) (steps : ℤ) (mode : String) (rand : Arr ℝ)
    (hb : beta > 0) (hs : steps > 0)
    (hmode : mode = "input-output" ∨ mode = "output-output" ∨
      mode = "hybrid" ∨ mode = "gs")
    (hm : mag.H = (mask.getD ⟨mag.H, mag.W, fun _ _ => true⟩).H ∧
      mag.W = (mask.getD ⟨mag.H, mag.W, fun _ _ => true⟩).W) :
    fienup_phase_retrieval mag none mask th beta steps mode rand =
      Except.ok
        ((fienupIter (bTo mag mag.H mag.W)
            (bTo (mask.getD ⟨mag.H, mag.W, fun _ _ => true⟩) mag.H mag.W)
            th beta mode steps.toNat
            ⟨fienupInitYhat mag
               ⟨mag.H, mag.W, fun h w => 2 * Real.pi * rand.get h w⟩,
             ⟨mag.H, mag.W, fun _ _ => 0⟩, none, []⟩).x,
         (fienupIter (bTo mag mag.H mag.W)
            (bTo (mask.getD ⟨mag.H, mag.W, fun _ _ => true⟩) mag.H mag.W)
            th beta mode steps.toNat
            ⟨fienupInitYhat mag
               ⟨mag.H, mag.W, fun h w => 2 * Real.pi * rand.get h w⟩,
             ⟨mag.H, mag.W, fun _ _ => 0⟩, none, []⟩).errors) := by
  simp only [fienup_phase_retrieval, Option.getD_none]
  rw [if_pos hb, if_pos hs, if_pos hmode, if_pos hm,
    if_pos (by simp [bCompat_self]),
    if_neg (by simp [bDim_self])]
  simp [bDim_self]

/-- Claim C6: for every valid input (valid mode, beta > 0, steps > 0,
mask and init_phi of mag's shape when supplied) the call succeeds, the
returned x has the same shape (H, W) as mag, and the returned error
trace has exactly steps entries, one appended (at the end) per
completed iteration, in every mode including gs. -/
theorem fienup_C6_shape_and_trace (mag : Arr ℝ) (p : Option (Arr ℝ))
    (maskO : Option (Arr Bool)) (th beta : ℝ) (steps : ℤ)
    (mode : String) (rand : Arr ℝ)
    (hb : beta > 0) (hs : steps > 0)
    (hmode : mode = "input-output" ∨ mode = "output-output" ∨
      mode = "hybrid" ∨ mode = "gs")
    (hmask : ∀ m, maskO = some m → mag.H = m.H ∧ mag.W = m.W)
    (hphi : ∀ q, p = some q → mag.H = q.H ∧ mag.W = q.W) :
    (∃ x errs,
      fienup_phase_retrieval mag p maskO th beta steps mode rand =
        Except.ok (x, errs)
      ∧ x.H = mag.H ∧ x.W = mag.W ∧ errs.length = steps.toNat)
    ∧ ∀ (mag2 : Arr ℝ) (mask2 : Arr Bool) (s : FState),
        ∃ v, (fienupStep mag2 mask2 th beta mode s).errors =
          s.errors ++ [v] := by
  have hm : mag.H = (maskO.getD ⟨mag.H, mag.W, fun _ _ => true⟩).H ∧
      mag.W = (maskO.getD ⟨mag.H, mag.W, fun _ _ => true⟩).W := by
    cases maskO with
    | none => exact ⟨rfl, rfl⟩
    | some m => exact hmask m rfl
  refine ⟨?_, fun mag2 mask2 s =>
    fienupStep_errors_one mag2 mask2 th beta mode s hmode⟩
  cases p with
  | none =>
      rw [fienup_top_ok_none mag maskO th beta steps mode rand
        hb hs hmode hm]
      refine ⟨_, _, rfl, ?_, ?_, ?_⟩
      · exact (fienupIter_shape _ _ th beta mode mag.H mag.W steps.toNat _
          (by simp [fienupInitYhat, bDim_self])
          (by simp [fienupInitYhat, bDim_self]) rfl rfl).2.2.1
      · exact (fienupIter_shape _ _ th beta mode mag.H mag.W steps.toNat _
          (by simp [fienupInitYhat, bDim_self])
          (by simp [fienupInitYhat, bDim_self]) rfl rfl).2.2.2
      · obtain ⟨t, htl, hte⟩ := fienupIter_errors_app _ _ th beta mode
          hmode steps.toNat
          ⟨fienupInitYhat mag
             ⟨mag.H, mag.W, fun h w => 2 * Real.pi * rand.get h w⟩,
           ⟨mag.H, mag.W, fun _ _ => 0⟩, none, []⟩
        rw [hte]
        simp [htl]
  | some q =>
      obtain ⟨hq1, hq2⟩ := hphi q rfl
      have h1 : bDim mag.H q.H = mag.H := by
        rw [← hq1]; exact bDim_self _
      have h2 : bDim mag.W q.W = mag.W := by
        rw [← hq2]; exact bDim_self _
      have hc : (bCompat mag.H q.H && bCompat mag.W q.W) = true := by
        rw [← hq1, ← hq2]; simp [bCompat_self]
      rw [fienup_top_ok mag q maskO th beta steps mode rand
        hb hs hmode hm hc (by simp [h1, h2]), h1, h2]
      refine ⟨_, _, rfl, ?_, ?_, ?_⟩
      · exact (fienupIter_shape _ _ th beta mode mag.H mag.W steps.toNat _
          (by simp [fienupInitYhat, h1])
          (by simp [fienupInitYhat, h2]) rfl rfl).2.2.1
      · exact (fienupIter_shape _ _ th beta mode mag.H mag.W steps.toNat _
          (by simp [fienupInitYhat, h1])
          (by simp [fienupInitYhat, h2]) rfl rfl).2.2.2
      · obtain ⟨t, htl, hte⟩ := fienupIter_errors_app _ _ th beta mode
          hmode steps.toNat
          ⟨fienupInitYhat mag q, ⟨mag.H, mag.W, fun _ _ => 0⟩, none, []⟩
        rw [hte]
        simp [htl]

/-- Witness for the C6 theorem at a concrete valid input. -/
theorem fienup_C6_shape_and_trace_witness :
    (∃ x errs,
      fienup_phase_retrieval mag11 none none 0 (8 / 10) 1 "gs" phi11 =
        Except.ok (x, errs)
      ∧ x.H = mag11.H ∧ x.W = mag11.W ∧ errs.length = (1 : ℤ).toNat)
    ∧ ∀ (mag2 : Arr ℝ) (mask2 : Arr Bool) (s : FState),
        ∃ v, (fienupStep mag2 mask2 0 (8 / 10) "gs" s).errors =
          s.errors ++ [v] :=
  fienup_C6_shape_and_trace mag11 none none 0 (8 / 10) 1 "gs" phi11
    (by norm_num) (by norm_num) (by decide)
    (fun m h => nomatch h) (fun q h => nomatch h)

lemma fienupErrVal_zero_x (mask : Arr Bool) (th : ℝ) (y : Arr ℝ)
    (H' W' : ℕ) :
    fienupErrVal mask th y (⟨H', W', fun _ _ => 0⟩ : Arr ℝ) = 0 := by
  rw [fienupErrVal]
  simp

lemma fienupIter_io_first_err (mag : Arr ℝ) (mask : Arr Bool)
    (th beta : ℝ) (n : ℕ) (hn : 0 < n) (yh : Arr ℂ) (H' W' : ℕ) :
    (fienupIter mag mask th beta "input-output" n
      ⟨yh, ⟨H', W', fun _ _ => 0⟩, none, []⟩).errors.head? = some 0 := by
  obtain ⟨k, rfl⟩ : ∃ k, n = k + 1 := ⟨n - 1, by omega⟩
  have hstep : (fienupStep mag mask th beta "input-output"
      ⟨yh, ⟨H', W', fun _ _ => 0⟩, none, []⟩).errors = [0] := by
    rw [fienupStep_errors_notgs _ _ _ _ _ _ (by decide)]
    simp [fienupErrVal_zero_x]
  obtain ⟨t, htl, hte⟩ := fienupIter_errors_app mag mask th beta
    "input-output" (Or.inl rfl) k
    (fienupStep mag mask th beta "input-output"
      ⟨yh, ⟨H', W', fun _ _ => 0⟩, none, []⟩)
  rw [fienupIter, hte, hstep]
  simp

/-- Claim C9: in mode input-output, for every valid input, the first
entry of the returned error trace is exactly 0: x starts as the zero
array, input-output never adopts y before the error computation, so the
iteration-1 error sum(x[indices]^2) is 0. -/
theorem fienup_C9_io_first_error_zero (mag : Arr ℝ) (p : Option (Arr ℝ))
    (maskO : Option (Arr Bool)) (th beta : ℝ) (steps : ℤ) (rand : Arr ℝ)
    (hb : beta > 0) (hs : steps > 0)
    (hmask : ∀ m, maskO = some m → mag.H = m.H ∧ mag.W = m.W)
    (hphi : ∀ q, p = some q → mag.H = q.H ∧ mag.W = q.W) :
    ∃ x errs,
      fienup_phase_retrieval mag p maskO th beta steps
          "input-output" rand =
        Except.ok (x, errs)
      ∧ errs.head? = some 0 := by
  have hm : mag.H = (maskO.getD ⟨mag.H, mag.W, fun _ _ => true⟩).H ∧
      mag.W = (maskO.getD ⟨mag.H, mag.W, fun _ _ => true⟩).W := by
    cases maskO with
    | none => exact ⟨rfl, rfl⟩
    | some m => exact hmask m rfl
  have hn : 0 < steps.toNat := by omega
  cases p with
  | none =>
      rw [fienup_top_ok_none mag maskO th beta steps "input-output" rand
        hb hs (by decide) hm]
      exact ⟨_, _, rfl, fienupIter_io_first_err _ _ th beta _ hn _ _ _⟩
  | some q =>
      obtain ⟨hq1, hq2⟩ := hphi q rfl
      have h1 : bDim mag.H q.H = mag.H := by
        rw [← hq1]; exact bDim_self _
      have h2 : bDim mag.W q.W = mag.W := by
        rw [← hq2]; exact bDim_self _
      have hc : (bCompat mag.H q.H && bCompat mag.W q.W) = true := by
        rw [← hq1, ← hq2]; simp [bCompat_self]
      rw [fienup_top_ok mag q maskO th beta steps "input-output" rand
        hb hs (by decide) hm hc (by simp [h1, h2])]
      exact ⟨_, _, rfl, fienupIter_io_first_err _ _ th beta _ hn _ _ _⟩

/-- Witness for the C9 theorem at a concrete valid input. -/
theorem fienup_C9_io_first_error_zero_witness :
    ∃ x errs,
      fienup_phase_retrieval mag11 (some phi11) none 0 (8 / 10) 1
          "input-output" phi11 =
        Except.ok (x, errs)
      ∧ errs.head? = some 0 :=
  fienup_C9_io_first_error_zero mag11 (some phi11) none 0 (8 / 10) 1
    phi11 (by norm_num) (by norm_num) (fun m h => nomatch h)
    (fun q h => by cases h; exact ⟨rfl, rfl⟩)

/-- Claim C7: a call with an unrecognized mode string, or beta <= 0, or
steps <= 0, or a supplied mask whose shape differs from mag's shape,
fails with a descriptive error before performing any iteration (the
result is an error and carries no error-trace entry). -/
theorem fienup_C7_precondition_failures (mag : Arr ℝ)
    (p : Option (Arr ℝ)) (maskO : Option (Arr Bool)) (th beta : ℝ)
    (steps : ℤ) (mode : String) (rand : Arr ℝ)
    (hbad : ¬beta > 0 ∨ ¬steps > 0 ∨
      ¬(mode = "input-output" ∨ mode = "output-output" ∨
        mode = "hybrid" ∨ mode = "gs") ∨
      (∃ m, maskO = some m ∧ ¬(mag.H = m.H ∧ mag.W = m.W))) :
    ∃ msg, fienup_phase_retrieval mag p maskO th beta steps mode rand =
      Except.error msg := by
  by_cases hb : beta > 0
  · by_cases hs : steps > 0
    · by_cases hmo : mode = "input-output" ∨ mode = "output-output" ∨
          mode = "hybrid" ∨ mode = "gs"
      · rcases hbad with h | h | h | h
        · exact absurd hb h
        · exact absurd hs h
        · exact absurd hmo h
        · obtain ⟨m, rfl, hshape⟩ := h
          refine ⟨"mask and mag must have same shape", ?_⟩
          simp only [fienup_phase_retrieval, Option.getD_some]
          rw [if_pos hb, if_pos hs, if_pos hmo, if_neg hshape]
      · exact ⟨_, by
          simp only [fienup_phase_retrieval]
          rw [if_pos hb, if_pos hs, if_neg hmo]⟩
    · exact ⟨_, by
        simp only [fienup_phase_retrieval]
        rw [if_pos hb, if_neg hs]⟩
  · exact ⟨_, by
      simp only [fienup_phase_retrieval]
      rw [if_neg hb]⟩

/-- Witness for the C7 theorem: an unrecognized mode string. -/
theorem fienup_C7_precondition_failures_witness :
    ∃ msg, fienup_phase_retrieval mag11 none none 0 (8 / 10) 1
        "phase" phi11 =
      Except.error msg :=
  fienup_C7_precondition_failures mag11 none none 0 (8 / 10) 1
    "phase" phi11 (Or.inr (Or.inr (Or.inl (by decide))))

/-- Counterexample to claim C2 as stated: mag is 2x2 while the supplied
init_phi is 1x2 - the shapes differ - yet the call does not fail: numpy
broadcasting silently stretches init_phi on line 54 and the computation
completes normally, returning a result. -/
theorem fienup_C2_counterexample :
    phi12.H ≠ mag22.H
    ∧ ∃ v, fienup_phase_retrieval mag22 (some phi12) none 0 (8 / 10) 1
        "hybrid" phi12 = Except.ok v := by
  constructor
  · decide
  · rw [fienup_top_ok mag22 phi12 none 0 (8 / 10) 1 "hybrid" phi12
      (by norm_num) (by norm_num) (by decide) ⟨rfl, rfl⟩
      (by decide) (by decide)]
    exact ⟨_, rfl⟩

/-- Claim C2 (amended): there is no shape check on init_phi at all.  A
supplied init_phi whose shape cannot be broadcast against mag's shape
makes the call fail (with numpy's broadcast ValueError, raised when
y_hat is built on line 54) before any iteration is performed; an
init_phi whose shape merely differs from mag's is not rejected by any
shape check - such a call can complete normally, as the counterexample
shows for a 1x2 init_phi with a 2x2 mag in hybrid mode. -/
theorem fienup_C2_amended (mag q : Arr ℝ) (maskO : Option (Arr Bool))
    (th beta : ℝ) (steps : ℤ) (mode : String) (rand : Arr ℝ)
    (hc : ¬(bCompat mag.H q.H && bCompat mag.W q.W) = true) :
    ∃ msg, fienup_phase_retrieval mag (some q) maskO th beta steps mode
        rand =
      Except.error msg := by
  by_cases hb : beta > 0
  · by_cases hs : steps > 0
    · by_cases hmo : mode = "input-output" ∨ mode = "output-output" ∨
          mode = "hybrid" ∨ mode = "gs"
      · by_cases hm : mag.H = (maskO.getD
            ⟨mag.H, mag.W, fun _ _ => true⟩).H ∧
            mag.W = (maskO.getD ⟨mag.H, mag.W, fun _ _ => true⟩).W
        · exact ⟨_, by
            simp only [fienup_phase_retrieval, Option.getD_some]
            rw [if_pos hb, if_pos hs, if_pos hmo, if_pos hm, if_neg hc]⟩
        · exact ⟨_, by
            simp only [fienup_phase_retrieval, Option.getD_some]
            rw [if_pos hb, if_pos hs, if_pos hmo, if_neg hm]⟩
      · exact ⟨_, by
          simp only [fienup_phase_retrieval]
          rw [if_pos hb, if_pos hs, if_neg hmo]⟩
    · exact ⟨_, by
        simp only [fienup_phase_retrieval]
        rw [if_pos hb, if_neg hs]⟩
  · exact ⟨_, by
      simp only [fienup_phase_retrieval]
      rw [if_neg hb]⟩

/-- Witness for the amended C2 theorem: a 3x2 init_phi cannot broadcast
against a 2x2 mag. -/
theorem fienup_C2_amended_witness :
    ∃ msg, fienup_phase_retrieval mag22 (some phi32) none 0 (8 / 10) 1
        "hybrid" phi32 =
      Except.error msg :=
  fienup_C2_amended mag22 phi32 none 0 (8 / 10) 1 "hybrid" phi32
    (by decide)

/-- Claim C10: the call never mutates its array arguments.  In the
aliasing skeleton of the source, every allocation targeted by the
in-place element assignments of lines 96-100 (the only in-place array
writes in the function) is a freshly created internal array - the zero
array of line 55 or an inverse-transform result of line 70 - and never
one of the caller's arrays mag, mask or init_phi. -/
theorem fienup_C10_no_arg_mutation (mode : String) (n i : ℕ) :
    ∀ a ∈ aliasWrites mode n i aliasInit, a.isArg = false := by
  have hstep2 : ∀ (j : ℕ) (e : AliasEnv), e.x.isArg = false →
      (aliasStep mode j e).2.isArg = false := by
    intro j e he
    simp only [aliasStep]
    split
    · rfl
    · exact he
  have hstep1 : ∀ (j : ℕ) (e : AliasEnv), e.x.isArg = false →
      (aliasStep mode j e).1.x.isArg = false := by
    intro j e he
    simp only [aliasStep]
    split
    · rfl
    · exact he
  have inv : ∀ (k j : ℕ) (e : AliasEnv), e.x.isArg = false →
      ∀ a ∈ aliasWrites mode k j e, a.isArg = false := by
    intro k
    induction k with
    | zero =>
        intro j e he a ha
        simp [aliasWrites] at ha
    | succ m ih =>
        intro j e he a ha
        rw [aliasWrites] at ha
        rcases List.mem_cons.mp ha with h | h
        · subst h
          exact hstep2 j e he
        · exact ih (j + 1) _ (hstep1 j e he) a h
  exact inv n i aliasInit rfl

/-- Witness for the C10 theorem: the allocation written by iteration 1
in hybrid mode is the fresh inverse-transform array of that iteration,
not an argument. -/
theorem fienup_C10_no_arg_mutation_witness :
    Alloc.freshY 1 ∈ aliasWrites "hybrid" 1 1 aliasInit
    ∧ (Alloc.freshY 1).isArg = false :=
  ⟨by decide,
   fienup_C10_no_arg_mutation "hybrid" 1 1 (Alloc.freshY 1) (by decide)⟩
